import Mathlib

/-!
Verification of the multi-factor recommendation core of the rec_demo
repository: a shallow embedding in Lean 4 of the experiment-assignment,
time-decay, behavior-profile, customization-matching, session-tracking and
reranking logic of app/experiment_service.py and app/embedding_service.py,
together with theorems settling the specified properties.

Modeling conventions:
- Python dicts are embedded as association lists in insertion order;
  defaultdict accumulation is read off as a key-indexed sum.
- Python floats are embedded as exact rationals where the code only adds,
  multiplies, compares and rounds, and as real numbers where the code uses
  real exponentiation (the time-decay model).
- Python round(x, n) (banker's rounding) is embedded exactly as
  round-half-to-even on the exact value.
- Python truthiness tests on strings, lists, dicts and numbers are embedded
  explicitly (empty or zero means false).
- list.sort(key=..., reverse=True) is a stable descending sort; it is
  embedded as List.mergeSort with the corresponding boolean relation.
-/

/-- Association-list lookup, the embedding of a Python dict read in
insertion order. -/
def dictGet {α : Type} (k : String) : List (String × α) → Option α
  | [] => none
  | (k₂, v) :: rest => if k = k₂ then some v else dictGet k rest

/-- Append an element to a list unless already present: the embedding of
the Python pattern `if x not in l: l.append(x)`. -/
def addUnique (l : List String) (t : String) : List String :=
  if t ∈ l then l else l ++ [t]

/-- Keep the last n elements of a list: the embedding of Python `l[-n:]`. -/
def lastN {α : Type} (n : Nat) (l : List α) : List α :=
  l.drop (l.length - n)

/-- Round-half-to-even of a number to an integer, the rounding mode of
Python round(). -/
def roundHalfEven {α : Type} [LinearOrderedField α] [FloorRing α] (x : α) : ℤ :=
  if Int.fract x < 1/2 then ⌊x⌋
  else if 1/2 < Int.fract x then ⌊x⌋ + 1
  else if ⌊x⌋ % 2 = 0 then ⌊x⌋ else ⌊x⌋ + 1

/-- Python round(x, nd) for nd decimal digits. -/
def pyRound {α : Type} [LinearOrderedField α] [FloorRing α] (nd : Nat) (x : α) : α :=
  (roundHalfEven (x * 10 ^ nd) : α) / 10 ^ nd

/-- Python truthiness of an optional string (None and the empty string are
falsy). -/
def truthyStr : Option String → Option String
  | some s => if s = "" then none else some s
  | none => none

/-- Python truthiness of an optional number (None and 0 are falsy). -/
def truthyQ : Option ℚ → Option ℚ
  | some p => if p = 0 then none else some p
  | none => none

/-- Python truthiness of an optional list (None and the empty list are
falsy). -/
def truthyList : Option (List String) → Option (List String)
  | some (x :: xs) => some (x :: xs)
  | _ => none

/-! ## A/B test service (ABTestService.get_variant) -/

/-- One arm of an experiment: id, display name and integer traffic weight
(the data model declares weights as non-negative integers). -/
structure Variant where
  id : String
  name : String
  weight : Nat
deriving DecidableEq

/-- An experiment record as held in the experiments cache. -/
structure Experiment where
  experiment_id : String
  name : String
  variants : List Variant
  status : String
deriving DecidableEq

/-- The result dict of get_variant. The matched-variant dict carries the
variant name and experiment name; the control and fall-through dicts omit
them, which is modeled with Option fields. -/
structure VariantResult where
  variant : String
  variant_name : Option String
  experiment_id : String
  experiment_name : Option String
deriving DecidableEq

/-- The in-memory state of ABTestService that get_variant reads: the
experiments cache, a dict keyed by experiment id. -/
structure ABTestService where
  experiments_cache : List (String × Experiment)

/-- Total declared weight of a variant list. -/
def sumWeights (vs : List Variant) : Nat :=
  (vs.map (fun v => v.weight)).sum

/-- The cumulative-weight walk of get_variant: starting from a running
cumulative weight, return the first variant whose cumulative weight
exceeds the bucket, if any. -/
def assignLoop (bucket : Nat) : Nat → List Variant → Option Variant
  | _, [] => none
  | cum, v :: vs =>
      if bucket < cum + v.weight then some v else assignLoop bucket (cum + v.weight) vs

/-- The sentinel result returned for an unknown or inactive experiment. -/
def controlResult (eid : String) : VariantResult :=
  { variant := "control", variant_name := none,
    experiment_id := eid, experiment_name := none }

/-- ABTestService.get_variant. The 128-bit MD5 hash of
"{experiment_id}:{user_id}" is abstracted as a function parameter hashFn
(its only use is the reduction modulo 100); everything after it is the
literal control flow of the source. The fall-through read of
exp["variants"][0] raises IndexError on an empty variant list, modeled as
Except.error. The function only reads the cache, so the returned state is
the input state. -/
def get_variant (hashFn : String → Nat) (s : ABTestService) (eid uid : String) :
    Except String VariantResult × ABTestService :=
  let res : Except String VariantResult :=
    match dictGet eid s.experiments_cache with
    | none => .ok (controlResult eid)
    | some exp =>
      if exp.status ≠ "active" then .ok (controlResult eid)
      else
        let bucket := hashFn (eid ++ ":" ++ uid) % 100
        match assignLoop bucket 0 exp.variants with
        | some v =>
            .ok { variant := v.id, variant_name := some v.name,
                  experiment_id := eid, experiment_name := some exp.name }
        | none =>
            match exp.variants with
            | [] => .error "IndexError"
            | v :: _ =>
                .ok { variant := v.id, variant_name := none,
                      experiment_id := eid, experiment_name := none }
  (res, s)

/-! ## Time decay (BehaviorService._calculate_time_decay) -/

/-- BehaviorService._calculate_time_decay: exponential decay with a 30-day
half-life and a floor of 0.1, as a function of the current time and the
event timestamp (seconds). -/
noncomputable def calculate_time_decay (now ts : ℝ) : ℝ :=
  let days_ago := (now - ts) / (24 * 3600)
  let decay := (1/2 : ℝ) ^ (days_ago / 30)
  max decay (1/10)

/-! ## Behavior profile (BehaviorService.get_user_profile_async) -/

/-- A row of the orders table as read back by get_user_orders_async (tags
and customization decoded from JSON; the customization snapshot keeps the
dict item order, values already stringified). -/
structure OrderRec where
  item_sku : String
  category : Option String
  tags : List String
  base_price : Option ℚ
  final_price : Option ℚ
  customization : List (String × String)
  timestamp : ℝ

/-- A click row from the user_behavior table: the decoded details dict
(category key, if present, and tags) and the event timestamp. -/
structure ClickRec where
  category : Option String
  tags : List String
  timestamp : ℝ

/-- The user profile dict built by get_user_profile_async. Keys absent
from the new-user early-return dict are modeled by their neutral values
(0, none, empty list). -/
structure Profile where
  user_id : String
  is_new_user : Bool
  order_count : Nat
  view_count : Nat
  click_count : Nat
  total_spend : ℚ
  favorite_items : List (String × ℝ)
  category_preference : List (String × ℝ)
  tag_preference : List (String × ℝ)
  customization_preference : List (String × List (String × ℚ))
  last_active : Option ℝ
  recent_orders : List OrderRec

/-- First-insertion key order of a defaultdict built by iterating a list
of keys. -/
def insertKeys (ks : List String) : List String :=
  ks.foldl addUnique []

/-- Value of the sku_scores defaultdict at a key: the decayed weights of
the orders for that SKU, summed. -/
def skuScores (decayFn : ℝ → ℝ) (orders : List OrderRec) (sku : String) : ℝ :=
  ((orders.filter (fun o => o.item_sku = sku)).map (fun o => decayFn o.timestamp)).sum

/-- The items() view of sku_scores: keys in first-insertion order paired
with their accumulated scores. -/
def skuItems (decayFn : ℝ → ℝ) (orders : List OrderRec) : List (String × ℝ) :=
  (insertKeys (orders.map (fun o => o.item_sku))).map
    (fun k => (k, skuScores decayFn orders k))

/-- The truthy category of an order (the code guards with
`if order.get("category"):`). -/
def orderCategory (o : OrderRec) : Option String :=
  truthyStr o.category

/-- Value of the category_scores defaultdict at a key: full decayed weight
per order, plus 0.3-reduced decayed weight per click whose details carry
that category. -/
def catScores (decayFn : ℝ → ℝ) (orders : List OrderRec) (clicks : List ClickRec)
    (c : String) : ℝ :=
  ((orders.filter (fun o => orderCategory o = some c)).map
      (fun o => decayFn o.timestamp)).sum
  + ((clicks.filter (fun cl => cl.category = some c)).map
      (fun cl => decayFn cl.timestamp * 0.3)).sum

/-- The items() view of category_scores, keys in first-insertion order
(orders are processed before clicks). -/
def catItems (decayFn : ℝ → ℝ) (orders : List OrderRec) (clicks : List ClickRec) :
    List (String × ℝ) :=
  (insertKeys (orders.filterMap orderCategory ++ clicks.filterMap (fun cl => cl.category))).map
    (fun k => (k, catScores decayFn orders clicks k))

/-- Value of the tag_scores defaultdict at a key; a tag listed twice on
one event contributes twice. -/
def tagScores (decayFn : ℝ → ℝ) (orders : List OrderRec) (clicks : List ClickRec)
    (t : String) : ℝ :=
  ((orders.map (fun o => (o.tags.count t : ℝ) * decayFn o.timestamp)).sum)
  + ((clicks.map (fun cl => (cl.tags.count t : ℝ) * (decayFn cl.timestamp * 0.3))).sum)

/-- The items() view of tag_scores, keys in first-insertion order. -/
def tagItems (decayFn : ℝ → ℝ) (orders : List OrderRec) (clicks : List ClickRec) :
    List (String × ℝ) :=
  (insertKeys (orders.flatMap (fun o => o.tags) ++ clicks.flatMap (fun cl => cl.tags))).map
    (fun k => (k, tagScores decayFn orders clicks k))

/-- Increment a value count in a per-dimension counter dict. -/
def bumpCount (v : String) : List (String × Nat) → List (String × Nat)
  | [] => [(v, 1)]
  | (v₂, c) :: rest =>
      if v = v₂ then (v₂, c + 1) :: rest else (v₂, c) :: bumpCount v rest

/-- Increment the counter of one customization dimension value in the
nested customization_counts dict. -/
def bumpDim (k v : String) : List (String × List (String × Nat)) →
    List (String × List (String × Nat))
  | [] => [(k, [(v, 1)])]
  | (k₂, m) :: rest =>
      if k = k₂ then (k₂, bumpCount v m) :: rest else (k₂, m) :: bumpDim k v rest

/-- The customization_counts nested dict: for every order with a truthy
customization snapshot, count each dimension value. -/
def custCounts (orders : List OrderRec) : List (String × List (String × Nat)) :=
  orders.foldl (fun m o => o.customization.foldl (fun m₂ kv => bumpDim kv.1 kv.2 m₂) m) []

/-- Normalization of one dimension of customization_preference: sort the
value counts descending (stable), keep the top 3, and write each kept
value as its rounded share of the total over all values of the
dimension. -/
def normalizeDim (valueCounts : List (String × Nat)) : List (String × ℚ) :=
  let total : ℚ := ((valueCounts.map (fun p => p.2)).sum : Nat)
  ((valueCounts.mergeSort (fun a b => decide (b.2 ≤ a.2))).take 3).map
    (fun p => (p.1, pyRound 2 ((p.2 : ℚ) / total)))

/-- The customization_preference dict: every counted dimension,
normalized. -/
def normalizeCustomization (counts : List (String × List (String × Nat))) :
    List (String × List (String × ℚ)) :=
  counts.map (fun p => (p.1, normalizeDim p.2))

/-- The spend of one order: final price, else base price, else 0, under
Python truthiness (a 0 price falls through). -/
def orPrice (o : OrderRec) : ℚ :=
  ((truthyQ o.final_price).or (truthyQ o.base_price)).getD 0

/-- Stable descending sort of (key, score) pairs by score: the embedding
of sorted(d.items(), key=lambda x: -x[1]). -/
noncomputable def sortDescR (l : List (String × ℝ)) : List (String × ℝ) :=
  l.mergeSort (fun a b => @decide (b.2 ≤ a.2) (Classical.propDecidable _))

/-- BehaviorService.get_user_orders_async: the orders table rows for the
user, newest first, truncated by the SQL LIMIT to the default limit of
50 rows. The input is the full stored history in timestamp-descending
order; the output is what the query delivers. -/
def get_user_orders (orders : List OrderRec) : List OrderRec :=
  orders.take 50

/-- BehaviorService.get_user_profile_async as a function of its data
sources: the full stored order history of the user (newest first), the
per-action behavior counts, the click rows with details (newest first),
and the last-active timestamp. The profile aggregates only the rows the
two LIMIT-50 queries deliver: get_user_orders orders for the orders and
the first 50 click rows. The decay function is a parameter instantiated
with calculate_time_decay. -/
noncomputable def get_user_profile (decayFn : ℝ → ℝ) (uid : String)
    (orders : List OrderRec) (behaviorCounts : List (String × Nat))
    (clicks : List ClickRec) (lastActive : Option ℝ) : Profile :=
  if (get_user_orders orders).isEmpty ∧ behaviorCounts.isEmpty then
    { user_id := uid, is_new_user := true, order_count := 0,
      view_count := 0, click_count := 0, total_spend := 0,
      favorite_items := [], category_preference := [], tag_preference := [],
      customization_preference := [], last_active := none, recent_orders := [] }
  else
    { user_id := uid
      is_new_user := false
      order_count := (get_user_orders orders).length
      view_count := (dictGet "view" behaviorCounts).getD 0
      click_count := (dictGet "click" behaviorCounts).getD 0
      total_spend := pyRound 2 (((get_user_orders orders).map orPrice).sum)
      favorite_items := ((sortDescR (skuItems decayFn (get_user_orders orders))).take 5).map
        (fun p => (p.1, pyRound 2 p.2))
      category_preference :=
        (sortDescR (catItems decayFn (get_user_orders orders) (clicks.take 50))).take 5
      tag_preference :=
        (sortDescR (tagItems decayFn (get_user_orders orders) (clicks.take 50))).take 10
      customization_preference := normalizeCustomization (custCounts (get_user_orders orders))
      last_active := lastActive
      recent_orders := (get_user_orders orders).take 5 }

/-! ## Customization matching (BehaviorService.get_customization_based_boost_async) -/

/-- Uppercase of a string (Python str.upper on the alphabets used here). -/
def upperStr (s : String) : String :=
  String.mk (s.data.map Char.toUpper)

/-- The cross-vocabulary equivalence table for temperatures. -/
def TEMP_MAP : List (String × List String) :=
  [("HOT", ["热", "HOT"]), ("ICED", ["冰", "ICED"]), ("BLENDED", ["冰沙", "BLENDED"])]

/-- The cross-vocabulary equivalence table for cup sizes. -/
def SIZE_MAP : List (String × List String) :=
  [("TALL", ["中杯", "TALL"]), ("GRANDE", ["大杯", "GRANDE"]), ("VENTI", ["超大杯", "VENTI"])]

/-- The cross-vocabulary equivalence table for milk types. -/
def MILK_MAP : List (String × List String) :=
  [("WHOLE", ["全脂牛奶", "全脂奶", "WHOLE"]), ("SKIM", ["脱脂牛奶", "脱脂奶", "SKIM"]),
   ("OAT", ["燕麦奶", "OAT"]), ("SOY", ["豆奶", "SOY"]),
   ("ALMOND", ["杏仁奶", "ALMOND"]), ("COCONUT", ["椰奶", "COCONUT"])]

/-- The cross-vocabulary equivalence table for sugar levels. -/
def SUGAR_MAP : List (String × List String) :=
  [("NONE", ["无糖", "NONE"]), ("LIGHT", ["微糖", "少糖", "LIGHT"]), ("HALF", ["半糖", "HALF"]),
   ("STANDARD", ["全糖", "标准糖", "STANDARD"]), ("EXTRA", ["多糖", "EXTRA"])]

/-- The matches_preference helper: an empty item list matches everything;
otherwise some synonym of the preferred value must equal some item value,
literally or case-insensitively. -/
def matches_preference (pref : String) (itemValues : List String)
    (mapping : List (String × List String)) : Bool :=
  if itemValues.isEmpty then true
  else
    let variants := (dictGet (upperStr pref) mapping).getD [pref]
    variants.any (fun v => itemValues.any (fun iv => v == iv || upperStr v == upperStr iv))

/-- Python max(d.items(), key=lambda x: x[1])[0] on a preference dict:
the first key of maximal value, none on an empty dict. -/
def argmaxKey : List (String × ℚ) → Option String
  | [] => none
  | p :: ps => some ((ps.foldl (fun best q => if best.2 < q.2 then q else best) p).1)

/-- A customization preference dict: dimension name to value distribution. -/
def CustPref : Type := List (String × List (String × ℚ))

/-- Read one dimension of a customization preference dict
(customization_pref.get(dim, \x7b\x7d)). -/
def getDim (pref : CustPref) (k : String) : List (String × ℚ) :=
  (dictGet k (pref : List (String × List (String × ℚ)))).getD []

/-- The customization-constraint fields the boost function reads. A Python
None constraints argument and an empty constraints dict are both falsy and
behave identically; both are modeled as the absent Option. -/
structure ConstraintsRec where
  available_milk_types : Option (List String)
  available_sugar_levels : Option (List String)
deriving DecidableEq

/-- A saved customization preset (the fields the boost function reads). -/
structure Preset where
  default_temperature : Option String
  default_cup_size : Option String
  default_sugar_level : Option String
  default_milk_type : Option String

/-- One dimension of the preset-derived preference dict, present only for
a truthy preset value, with the fixed confidence weight 0.9. -/
def presetEntry (k : String) (v : Option String) : List (String × List (String × ℚ)) :=
  match truthyStr v with
  | some s => [(k, [(s, 0.9)])]
  | none => []

/-- The preset_prefs dict built from the first saved preset, if any. -/
def presetPrefs (presets : List Preset) : CustPref :=
  match presets with
  | [] => []
  | p :: _ =>
      presetEntry "temperature" p.default_temperature
      ++ presetEntry "cup_size" p.default_cup_size
      ++ presetEntry "sugar_level" p.default_sugar_level
      ++ presetEntry "milk_type" p.default_milk_type

/-- The temperature_match factor. -/
def tempFactor (pref : CustPref) (temps : List String) : ℚ :=
  let temp_pref := getDim pref "temperature"
  if temp_pref.isEmpty || temps.isEmpty then 1
  else
    match argmaxKey temp_pref with
    | some pt =>
        if pt ≠ "" then (if matches_preference pt temps TEMP_MAP then 1.15 else 0.9) else 1
    | none => 1

/-- The size_match factor. -/
def sizeFactor (pref : CustPref) (sizes : List String) : ℚ :=
  let size_pref := getDim pref "cup_size"
  if size_pref.isEmpty || sizes.isEmpty then 1
  else
    match argmaxKey size_pref with
    | some ps =>
        if ps ≠ "" then (if matches_preference ps sizes SIZE_MAP then 1.1 else 0.95) else 1
    | none => 1

/-- The milk_match factor. When a milk preference exists and the
constraints dict is truthy but lists no available milk types, the code
does not stay neutral: it returns 0.95 for a non-NONE preference and 1.05
otherwise. -/
def milkFactor (pref : CustPref) (cons : Option ConstraintsRec) : ℚ :=
  let milk_pref := getDim pref "milk_type"
  if milk_pref.isEmpty then 1
  else
    match cons with
    | none => 1
    | some c =>
      match truthyList c.available_milk_types with
      | some milks =>
          match argmaxKey milk_pref with
          | some pm =>
              if pm ≠ "" then
                (if matches_preference pm milks MILK_MAP then 1.2 else 0.85)
              else 1
          | none => 1
      | none =>
          match argmaxKey milk_pref with
          | some pm => if pm ≠ "" ∧ upperStr pm ≠ "NONE" then 0.95 else 1.05
          | none => 1.05

/-- The sugar_match factor. -/
def sugarFactor (pref : CustPref) (cons : Option ConstraintsRec) : ℚ :=
  let sugar_pref := getDim pref "sugar_level"
  if sugar_pref.isEmpty then 1
  else
    match cons with
    | none => 1
    | some c =>
      match truthyList c.available_sugar_levels with
      | some sugars =>
          match argmaxKey sugar_pref with
          | some ps =>
              if ps ≠ "" then
                (if matches_preference ps sugars SUGAR_MAP then 1.15 else 0.9)
              else 1
          | none => 1
      | none => 1

/-- The result of the customization boost: the rounded total and the four
rounded per-dimension factors (the human-readable explanation string is
presentational and not modeled). -/
structure BoostResult where
  total_boost : ℚ
  temperature_match : ℚ
  size_match : ℚ
  milk_match : ℚ
  sugar_match : ℚ
deriving DecidableEq

/-- BehaviorService.get_customization_based_boost_async as a function of
the profile-derived customization preference, the new-user flag, the
saved presets, and the item constraints and option lists: merge preset
preferences, return the neutral result for new users without presets or
for an empty preference, otherwise compute the four dimension factors,
multiply, clamp to [0.8, 1.5] and round. -/
def get_customization_based_boost (isNewUser : Bool) (custPref : CustPref)
    (presets : List Preset) (cons : Option ConstraintsRec)
    (temps sizes : List String) : BoostResult :=
  let presetP := presetPrefs presets
  let pref := if (custPref : List (String × List (String × ℚ))).isEmpty
      ∧ ¬ (presetP : List (String × List (String × ℚ))).isEmpty then presetP else custPref
  if (isNewUser ∧ presets.isEmpty) ∨ (pref : List (String × List (String × ℚ))).isEmpty then
    { total_boost := 1, temperature_match := 1, size_match := 1,
      milk_match := 1, sugar_match := 1 }
  else
    let t := tempFactor pref temps
    let sz := sizeFactor pref sizes
    let m := milkFactor pref cons
    let su := sugarFactor pref cons
    let total := max 0.8 (min 1.5 (t * sz * m * su))
    { total_boost := pyRound 3 total, temperature_match := pyRound 3 t,
      size_match := pyRound 3 sz, milk_match := pyRound 3 m,
      sugar_match := pyRound 3 su }

/-! ## Session service (SessionService) -/

/-- The item_data snapshot passed to record_interaction (the keys the
code reads: tags, category, price). -/
structure SessionItem where
  tags : List String
  category : Option String
  price : Option ℚ
deriving DecidableEq

/-- One entry of the bounded interaction ring. -/
structure InteractionRec where
  itype : String
  item : SessionItem
deriving DecidableEq

/-- The running price range of a session. -/
structure PriceRange where
  minP : ℚ
  maxP : ℚ
  avg : ℚ
  count : Nat
deriving DecidableEq

/-- The realtime_preferences dict of a session. -/
structure RealtimePrefs where
  liked_tags : List String
  disliked_tags : List String
  viewed_categories : List String
  price_range : Option PriceRange
deriving DecidableEq

/-- A session record (creation and last-active timestamps and experiment
assignments are not read by any modeled operation and are omitted). -/
structure Session where
  session_id : String
  user_id : String
  interactions : List InteractionRec
  prefs : RealtimePrefs
deriving DecidableEq

/-- The fresh session created by get_or_create_session. -/
def newSession (sid : String) (uid : Option String) : Session :=
  { session_id := sid
    user_id := uid.getD ("guest_" ++ sid.take 8)
    interactions := []
    prefs := { liked_tags := [], disliked_tags := [], viewed_categories := [],
               price_range := none } }

/-- The price-range update of a view or click carrying a truthy price. -/
def updatePriceRange (pr : Option PriceRange) (price : ℚ) : PriceRange :=
  match pr with
  | none => { minP := price, maxP := price, avg := price, count := 1 }
  | some pr =>
      { minP := min pr.minP price
        maxP := max pr.maxP price
        avg := (pr.avg * pr.count + price) / (pr.count + 1)
        count := pr.count + 1 }

/-- SessionService.record_interaction, per session: append to the
interaction ring (capped at the last 50 entries) and update the realtime
preferences according to the interaction type. The service method wraps
this with get_or_create_session and stores the result back in the session
table. -/
def record_interaction (s : Session) (itype : String) (item : SessionItem) : Session :=
  let s := { s with interactions := lastN 50 (s.interactions ++ [⟨itype, item⟩]) }
  if itype = "like" then
    { s with prefs := { s.prefs with
        liked_tags := item.tags.foldl addUnique s.prefs.liked_tags } }
  else if itype = "dislike" then
    let p := item.tags.foldl
      (fun (pr : List String × List String) t =>
        (addUnique pr.1 t, if t ∈ pr.2 then pr.2.erase t else pr.2))
      (s.prefs.disliked_tags, s.prefs.liked_tags)
    { s with prefs := { s.prefs with disliked_tags := p.1, liked_tags := p.2 } }
  else if itype = "view" ∨ itype = "click" then
    let viewed :=
      match truthyStr item.category with
      | some c => addUnique s.prefs.viewed_categories c
      | none => s.prefs.viewed_categories
    let prange :=
      match truthyQ item.price with
      | some price => some (updatePriceRange s.prefs.price_range price)
      | none => s.prefs.price_range
    { s with prefs := { s.prefs with viewed_categories := viewed, price_range := prange } }
  else s

/-- SessionService.get_session_boost: neutral 1.0 for an unknown session;
otherwise multiply the liked-tag, disliked-tag, viewed-category and
price-range factors and cap at 2.5. -/
def get_session_boost (sessions : List (String × Session)) (sid : String)
    (item_tags : List String) (item_category : String) (item_price : ℚ) : ℚ :=
  match dictGet sid sessions with
  | none => 1
  | some s =>
    let prefs := s.prefs
    let likedMatch := (item_tags.filter (fun t => t ∈ prefs.liked_tags)).length
    let boost : ℚ := 1 * (1 + (likedMatch : ℚ) * 0.15)
    let dislikedMatch := (item_tags.filter (fun t => t ∈ prefs.disliked_tags)).length
    let boost := boost * max 0.3 (1 - (dislikedMatch : ℚ) * 0.3)
    let boost := if item_category ∈ prefs.viewed_categories then boost * 1.1 else boost
    let boost :=
      match prefs.price_range with
      | some pr =>
          if pr.count ≥ 3 ∧ pr.minP ≤ item_price ∧ item_price ≤ pr.maxP
          then boost * 1.05 else boost
      | none => boost
    min boost 2.5

/-- Replay of a sequence of record_interaction calls on one session. -/
def applyInteractions (s : Session) (evs : List (String × SessionItem)) : Session :=
  evs.foldl (fun s e => record_interaction s e.1 e.2) s

/-- The price observed by one recorded interaction: present exactly when
the interaction is a view or click whose item carries a truthy price. -/
def eventPrice (e : String × SessionItem) : Option ℚ :=
  if e.1 = "view" ∨ e.1 = "click" then truthyQ e.2.price else none

/-- All prices observed by a sequence of interactions, in order. -/
def observedPrices (evs : List (String × SessionItem)) : List ℚ :=
  evs.filterMap eventPrice

/-- The price-range bookkeeping a session must satisfy after replaying
interactions that observed the given prices: no range without observed
prices; otherwise the count is the number of observed prices, min and max
are the minimum and maximum of the observed prices, and the running
average is their mean. -/
def PriceInv (ps : List ℚ) : Option PriceRange → Prop
  | none => ps = []
  | some pr =>
      ps ≠ [] ∧ pr.count = ps.length
      ∧ pr.minP ∈ ps ∧ (∀ p ∈ ps, pr.minP ≤ p)
      ∧ pr.maxP ∈ ps ∧ (∀ p ∈ ps, p ≤ pr.maxP)
      ∧ pr.avg = ps.sum / ps.length

/-! ## Reranking (EmbeddingRecommendationEngine.recommend_v2, step 4) -/

/-- The scoring ledger of one candidate entering the final composition:
the base similarity and the five multiplier factors computed by steps
2 to 4 of the pipeline, in similarity-ranked order. -/
structure CandidateFactors where
  sku : String
  base_score : ℚ
  rule_multiplier : ℚ
  behavior_multiplier : ℚ
  session_multiplier : ℚ
  customization_multiplier : ℚ
  cold_start_boost : ℚ
deriving DecidableEq

/-- One reranked result record with its composed final score. -/
structure RecEntry where
  sku : String
  base_score : ℚ
  rule_multiplier : ℚ
  behavior_multiplier : ℚ
  session_multiplier : ℚ
  customization_multiplier : ℚ
  cold_start_boost : ℚ
  final_score : ℚ
deriving DecidableEq

/-- Composition of the final score of one candidate:
final_score = base x rule x behavior x session x customization x cold_start. -/
def mkEntry (c : CandidateFactors) : RecEntry :=
  { sku := c.sku
    base_score := c.base_score
    rule_multiplier := c.rule_multiplier
    behavior_multiplier := c.behavior_multiplier
    session_multiplier := c.session_multiplier
    customization_multiplier := c.customization_multiplier
    cold_start_boost := c.cold_start_boost
    final_score := c.base_score * c.rule_multiplier * c.behavior_multiplier
      * c.session_multiplier * c.customization_multiplier * c.cold_start_boost }

/-- The reranking core of recommend_v2: score every candidate and sort
descending by final score with a stable sort
(reranked.sort(key=lambda x: x["final_score"], reverse=True)). -/
def rerank (cs : List CandidateFactors) : List RecEntry :=
  (cs.map mkEntry).mergeSort (fun a b => decide (b.final_score ≤ a.final_score))

/-! ## Theorems -/

/-- Helper: the cumulative walk finds no variant when the bucket is at
least the full cumulative weight. -/
theorem assignLoop_eq_none (bucket : Nat) :
    ∀ (vs : List Variant) (cum : Nat), cum + sumWeights vs ≤ bucket →
      assignLoop bucket cum vs = none := by
  intro vs
  induction vs with
  | nil => intro cum _; rfl
  | cons v vs ih =>
      intro cum h
      simp only [sumWeights, List.map_cons, List.sum_cons] at h
      have hlt : ¬ bucket < cum + v.weight := by omega
      simp only [assignLoop, if_neg hlt]
      exact ih (cum + v.weight) (by simp only [sumWeights]; omega)

/-- C1: for every experiment id and user id, repeated calls to get_variant
on the same service state return the same result and leave the state
unchanged (assignment is a pure function of the cache and the inputs, with
no per-user assignment state), and an unknown or non-active experiment
yields the sentinel "control" variant. -/
theorem get_variant_deterministic_and_control (hashFn : String → Nat)
    (s : ABTestService) (eid uid : String) :
    ((get_variant hashFn s eid uid).1
        = (get_variant hashFn (get_variant hashFn s eid uid).2 eid uid).1
      ∧ (get_variant hashFn s eid uid).2 = s)
    ∧ (dictGet eid s.experiments_cache = none →
        (get_variant hashFn s eid uid).1 = .ok (controlResult eid))
    ∧ (∀ exp, dictGet eid s.experiments_cache = some exp → exp.status ≠ "active" →
        (get_variant hashFn s eid uid).1 = .ok (controlResult eid)) := by
  refine ⟨⟨rfl, rfl⟩, ?_, ?_⟩
  · intro h
    simp only [get_variant, h]
  · intro exp hfind hstatus
    simp only [get_variant, hfind, if_pos hstatus]

/-- Witness for C1 at concrete inputs: an experiment id absent from the
cache and a paused experiment both give the control variant. -/
theorem get_variant_deterministic_and_control_witness :
    (get_variant (fun _ => 0) ⟨[("e1", ⟨"e1", "E1", [], "paused"⟩)]⟩ "e0" "u").1
      = .ok (controlResult "e0")
    ∧ (get_variant (fun _ => 0) ⟨[("e1", ⟨"e1", "E1", [], "paused"⟩)]⟩ "e1" "u").1
      = .ok (controlResult "e1") :=
  ⟨(get_variant_deterministic_and_control (fun _ => 0)
      ⟨[("e1", ⟨"e1", "E1", [], "paused"⟩)]⟩ "e0" "u").2.1 (by decide),
   (get_variant_deterministic_and_control (fun _ => 0)
      ⟨[("e1", ⟨"e1", "E1", [], "paused"⟩)]⟩ "e1" "u").2.2
     ⟨"e1", "E1", [], "paused"⟩ (by decide) (by decide)⟩

/-- C2 counterexample: an active experiment with variants a (weight 10)
and b (weight 20), whose weights sum to 30 < 100, and a user whose bucket
is 50 (not exceeded by any cumulative weight): the code returns the FIRST
variant a, not the last variant b as the claim states. -/
theorem get_variant_fallthrough_counterexample :
    ((get_variant (fun _ => 150)
        ⟨[("exp_ab", ⟨"exp_ab", "AB", [⟨"a", "A", 10⟩, ⟨"b", "B", 20⟩], "active"⟩)]⟩
        "exp_ab" "u1").1
      = .ok { variant := "a", variant_name := none,
              experiment_id := "exp_ab", experiment_name := none })
    ∧ (([⟨"a", "A", 10⟩, ⟨"b", "B", 20⟩] : List Variant).getLast?.map Variant.id
        = some "b")
    ∧ ("a" : String) ≠ "b" := by
  refine ⟨rfl, by decide, by decide⟩

/-- C2 amended: for an active cached experiment whose bucket is not
exceeded by any cumulative weight (in particular when the weights sum to
less than 100), get_variant returns the first variant in declaration
order, not the last. -/
theorem get_variant_fallthrough_first (hashFn : String → Nat) (s : ABTestService)
    (eid uid : String) (exp : Experiment) (v : Variant) (rest : List Variant)
    (hfind : dictGet eid s.experiments_cache = some exp)
    (hactive : exp.status = "active")
    (hvars : exp.variants = v :: rest)
    (hbucket : sumWeights exp.variants ≤ hashFn (eid ++ ":" ++ uid) % 100) :
    (get_variant hashFn s eid uid).1
      = .ok { variant := v.id, variant_name := none,
              experiment_id := eid, experiment_name := none } := by
  have hloop : assignLoop (hashFn (eid ++ ":" ++ uid) % 100) 0 (v :: rest) = none := by
    rw [← hvars]
    exact assignLoop_eq_none _ exp.variants 0 (by omega)
  simp only [get_variant, hfind, hactive, ne_eq, not_true_eq_false, if_false, hvars, hloop]

/-- Witness for the amended C2 at the counterexample input: the first
variant a is returned. -/
theorem get_variant_fallthrough_first_witness :
    (get_variant (fun _ => 150)
        ⟨[("exp_ab", ⟨"exp_ab", "AB", [⟨"a", "A", 10⟩, ⟨"b", "B", 20⟩], "active"⟩)]⟩
        "exp_ab" "u1").1
      = .ok { variant := "a", variant_name := none,
              experiment_id := "exp_ab", experiment_name := none } :=
  get_variant_fallthrough_first (fun _ => 150)
    ⟨[("exp_ab", ⟨"exp_ab", "AB", [⟨"a", "A", 10⟩, ⟨"b", "B", 20⟩], "active"⟩)]⟩
    "exp_ab" "u1" ⟨"exp_ab", "AB", [⟨"a", "A", 10⟩, ⟨"b", "B", 20⟩], "active"⟩
    ⟨"a", "A", 10⟩ [⟨"b", "B", 20⟩] (by decide) (by decide) (by decide) (by decide)

/-- C3: the time-decay weight is max of 0.5 to the power days/30 and the
floor 0.1; an event at the current time decays to 1, an event exactly 30
days old decays to 1/2, and every event keeps at least weight 0.1. -/
theorem calculate_time_decay_spec (now : ℝ) :
    calculate_time_decay now now = 1
    ∧ calculate_time_decay now (now - 30 * (24 * 3600)) = 1/2
    ∧ (∀ ts : ℝ, 1/10 ≤ calculate_time_decay now ts)
    ∧ (∀ ts : ℝ, calculate_time_decay now ts
        = max ((1/2 : ℝ) ^ (((now - ts) / (24 * 3600)) / 30)) (1/10)) := by
  refine ⟨?_, ?_, fun ts => le_max_right _ _, fun ts => rfl⟩
  · show max ((1/2 : ℝ) ^ (((now - now) / (24 * 3600)) / 30)) (1/10) = 1
    rw [sub_self, zero_div, zero_div, Real.rpow_zero]
    norm_num
  · show max ((1/2 : ℝ) ^ (((now - (now - 30 * (24 * 3600))) / (24 * 3600)) / 30)) (1/10)
      = 1/2
    have h : ((now - (now - 30 * (24 * 3600))) / (24 * 3600)) / 30 = 1 := by
      field_simp
    rw [h, Real.rpow_one]
    norm_num

/-- Helper: N identical orders accumulate N times the decayed weight of
their shared timestamp in the sku_scores bucket. -/
theorem skuScores_replicate (decayFn : ℝ → ℝ) (N : Nat) (o : OrderRec) :
    skuScores decayFn (List.replicate N o) o.item_sku = N * decayFn o.timestamp := by
  induction N with
  | zero => simp [skuScores]
  | succ n ih =>
      rw [List.replicate_succ]
      unfold skuScores at ih ⊢
      simp only [List.filter_cons, decide_eq_true_eq, if_pos rfl, if_true, ite_true]
      rw [List.map_cons, List.sum_cons, ih]
      push_cast
      ring

/-- Helper: addUnique keeps a list unchanged when the element is present. -/
theorem addUnique_mem {l : List String} {t : String} (h : t ∈ l) : addUnique l t = l := by
  simp [addUnique, h]

/-- Helper: folding addUnique over copies of one string from a singleton
accumulator is the singleton. -/
theorem foldl_addUnique_replicate (n : Nat) (s : String) :
    List.foldl addUnique [s] (List.replicate n s) = [s] := by
  induction n with
  | zero => rfl
  | succ m ih =>
      rw [List.replicate_succ, List.foldl_cons, addUnique_mem (by simp)]
      exact ih

/-- Helper: the key set of sku_scores for N+1 identical orders is the
single shared SKU. -/
theorem insertKeys_replicate (n : Nat) (s : String) :
    insertKeys (List.replicate (n + 1) s) = [s] := by
  rw [List.replicate_succ]
  unfold insertKeys
  rw [List.foldl_cons]
  have h1 : addUnique [] s = [s] := by simp [addUnique]
  rw [h1]
  exact foldl_addUnique_replicate n s

/-- C4 counterexample: a user with 51 identical orders of one SKU at one
timestamp. The profile fetch delivers only the 50 most recent rows
(LIMIT 50), so the SKU accumulates 50 times the decay weight of the
shared timestamp, not 51 times as the claim states (at this timestamp
the decay weight is 1, so 50 versus 51). -/
theorem profile_limit50_counterexample :
    skuScores (calculate_time_decay 0)
        (get_user_orders (List.replicate 51
          ({ item_sku := "latte", category := none, tags := [], base_price := none,
             final_price := none, customization := [], timestamp := 0 } : OrderRec)))
        "latte"
      = 50
    ∧ (51 : ℝ) * calculate_time_decay 0 0 = 51
    ∧ (50 : ℝ) ≠ 51 := by
  have hdec : calculate_time_decay 0 0 = 1 := by
    show max ((1/2 : ℝ) ^ (((0 - 0) / (24 * 3600)) / 30)) (1/10) = 1
    rw [sub_self, zero_div, zero_div, Real.rpow_zero]
    norm_num
  refine ⟨?_, ?_, by norm_num⟩
  · have hfetch : get_user_orders (List.replicate 51
          ({ item_sku := "latte", category := none, tags := [], base_price := none,
             final_price := none, customization := [], timestamp := 0 } : OrderRec))
        = List.replicate 50
          ({ item_sku := "latte", category := none, tags := [], base_price := none,
             final_price := none, customization := [], timestamp := 0 } : OrderRec) := by
      unfold get_user_orders
      rw [List.take_replicate, Nat.min_eq_left (by norm_num)]
    rw [hfetch]
    have h50 := skuScores_replicate (calculate_time_decay 0) 50
      ({ item_sku := "latte", category := none, tags := [], base_price := none,
         final_price := none, customization := [], timestamp := 0 } : OrderRec)
    dsimp only at h50
    rw [hdec] at h50
    rw [h50]
    norm_num
  · rw [hdec]
    norm_num

/-- C4 amended: a user with zero recorded events gets a profile flagged
is_new_user with empty SKU, category, tag and customization
distributions. The profile aggregates only the 50 most recent orders the
LIMIT-50 fetch delivers: for a history of exactly N same-SKU,
same-timestamp orders the SKU accumulated weight is min(N, 50) times the
time-decay weight of that timestamp, so it equals N times that weight
exactly when N is at most 50 (and for N+1 orders, N+1 at most 50, the
profile lists the single favorite item with that accumulated weight,
rounded). -/
theorem behavior_profile_empty_and_replicate :
    (∀ (decayFn : ℝ → ℝ) (uid : String),
      (get_user_profile decayFn uid [] [] [] none).is_new_user = true
      ∧ (get_user_profile decayFn uid [] [] [] none).favorite_items = []
      ∧ (get_user_profile decayFn uid [] [] [] none).category_preference = []
      ∧ (get_user_profile decayFn uid [] [] [] none).tag_preference = []
      ∧ (get_user_profile decayFn uid [] [] [] none).customization_preference = [])
    ∧ (∀ (now : ℝ) (N : Nat) (o : OrderRec),
        skuScores (calculate_time_decay now) (get_user_orders (List.replicate N o)) o.item_sku
          = (min N 50 : ℕ) * calculate_time_decay now o.timestamp)
    ∧ (∀ (now : ℝ) (N : Nat) (o : OrderRec), N ≤ 50 →
        skuScores (calculate_time_decay now) (get_user_orders (List.replicate N o)) o.item_sku
          = N * calculate_time_decay now o.timestamp)
    ∧ (∀ (now : ℝ) (uid : String) (N : Nat) (o : OrderRec), N + 1 ≤ 50 →
        (get_user_profile (calculate_time_decay now) uid
            (List.replicate (N + 1) o) [] [] none).favorite_items
          = [(o.item_sku,
              pyRound 2 ((N + 1 : ℝ) * calculate_time_decay now o.timestamp))]) := by
  refine ⟨?_, ?_, ?_, ?_⟩
  · intro decayFn uid
    refine ⟨rfl, rfl, rfl, rfl, rfl⟩
  · intro now N o
    have hfetch : get_user_orders (List.replicate N o) = List.replicate (min 50 N) o := by
      unfold get_user_orders
      exact List.take_replicate o 50 N
    rw [hfetch, skuScores_replicate, Nat.min_comm]
  · intro now N o h
    have hfetch : get_user_orders (List.replicate N o) = List.replicate N o := by
      unfold get_user_orders
      rw [List.take_replicate, Nat.min_eq_right h]
    rw [hfetch, skuScores_replicate]
  · intro now uid N o h
    have hfetch : get_user_orders (List.replicate (N + 1) o) = List.replicate (N + 1) o := by
      unfold get_user_orders
      rw [List.take_replicate, Nat.min_eq_right h]
    have hne : (List.replicate (N + 1) o).isEmpty = false := by
      rw [List.replicate_succ]
      rfl
    have hitems : skuItems (calculate_time_decay now) (List.replicate (N + 1) o)
        = [(o.item_sku, ((N + 1 : ℝ)) * calculate_time_decay now o.timestamp)] := by
      unfold skuItems
      rw [show (List.replicate (N + 1) o).map (fun o => o.item_sku)
            = List.replicate (N + 1) o.item_sku from List.map_replicate ..,
          insertKeys_replicate, List.map_singleton, skuScores_replicate]
      push_cast
      rfl
    unfold get_user_profile
    rw [hfetch]
    rw [if_neg (by simp [hne])]
    simp only [hitems, sortDescR, List.mergeSort_singleton, List.take_succ_cons,
      List.take_nil, List.map_cons, List.map_nil]

/-- Witness for the amended C4 at concrete histories inside the fetch
limit: 2 orders accumulate twice the decay weight, and with 3 orders the
profile lists the single favorite item. -/
theorem behavior_profile_empty_and_replicate_witness :
    skuScores (calculate_time_decay 0)
        (get_user_orders (List.replicate 2
          ({ item_sku := "latte", category := none, tags := [], base_price := none,
             final_price := none, customization := [], timestamp := 0 } : OrderRec)))
        ({ item_sku := "latte", category := none, tags := [], base_price := none,
           final_price := none, customization := [], timestamp := 0 } : OrderRec).item_sku
      = (2 : ℕ) * calculate_time_decay 0
          ({ item_sku := "latte", category := none, tags := [], base_price := none,
             final_price := none, customization := [], timestamp := 0 } : OrderRec).timestamp
    ∧ (get_user_profile (calculate_time_decay 0) "u7"
          (List.replicate (2 + 1)
            ({ item_sku := "latte", category := none, tags := [], base_price := none,
               final_price := none, customization := [], timestamp := 0 } : OrderRec))
          [] [] none).favorite_items
      = [(({ item_sku := "latte", category := none, tags := [], base_price := none,
             final_price := none, customization := [], timestamp := 0 } : OrderRec).item_sku,
          pyRound 2 (((2 : ℕ) + 1 : ℝ) * calculate_time_decay 0
            ({ item_sku := "latte", category := none, tags := [], base_price := none,
               final_price := none, customization := [], timestamp := 0 } : OrderRec).timestamp))] :=
  ⟨behavior_profile_empty_and_replicate.2.2.1 0 2
     ({ item_sku := "latte", category := none, tags := [], base_price := none,
        final_price := none, customization := [], timestamp := 0 } : OrderRec) (by decide),
   behavior_profile_empty_and_replicate.2.2.2 0 "u7" 2
     ({ item_sku := "latte", category := none, tags := [], base_price := none,
        final_price := none, customization := [], timestamp := 0 } : OrderRec) (by decide)⟩

/-- Helper: round-half-to-even never moves a value by more than one
half. -/
theorem abs_roundHalfEven_sub {α : Type} [LinearOrderedField α] [FloorRing α] (x : α) :
    |(roundHalfEven x : α) - x| ≤ 1/2 := by
  have hf0 : 0 ≤ Int.fract x := Int.fract_nonneg x
  have hf1 : Int.fract x < 1 := Int.fract_lt_one x
  have hfl : (⌊x⌋ : α) - x = -(Int.fract x) := by rw [Int.fract]; ring
  unfold roundHalfEven
  split_ifs with h1 h2 h3
  · rw [hfl, abs_neg, abs_of_nonneg hf0]; linarith
  · push_cast
    have : ((⌊x⌋ : α) + 1) - x = 1 - Int.fract x := by rw [Int.fract]; ring
    rw [this, abs_of_nonneg (by linarith)]; linarith
  · have heq : Int.fract x = 1/2 := le_antisymm (not_lt.mp h2) (not_lt.mp h1)
    rw [hfl, abs_neg, abs_of_nonneg hf0, heq]
  · have heq : Int.fract x = 1/2 := le_antisymm (not_lt.mp h2) (not_lt.mp h1)
    push_cast
    have : ((⌊x⌋ : α) + 1) - x = 1 - Int.fract x := by rw [Int.fract]; ring
    rw [this, abs_of_nonneg (by linarith), heq]; norm_num

/-- Helper: the floor bounds round-half-to-even from below. -/
theorem floor_le_roundHalfEven {α : Type} [LinearOrderedField α] [FloorRing α] (x : α) :
    ⌊x⌋ ≤ roundHalfEven x := by
  unfold roundHalfEven
  split_ifs <;> omega

/-- Helper: round-half-to-even is at most the floor plus one. -/
theorem roundHalfEven_le_floor_add_one {α : Type} [LinearOrderedField α] [FloorRing α]
    (x : α) : roundHalfEven x ≤ ⌊x⌋ + 1 := by
  unfold roundHalfEven
  split_ifs <;> omega

/-- Helper: an integer lower bound on the value bounds its rounding. -/
theorem int_le_roundHalfEven {α : Type} [LinearOrderedField α] [FloorRing α]
    (n : ℤ) (x : α) (h : (n : α) ≤ x) : n ≤ roundHalfEven x :=
  le_trans (Int.le_floor.mpr h) (floor_le_roundHalfEven x)

/-- Helper: an integer upper bound on the value bounds its rounding. -/
theorem roundHalfEven_le_int {α : Type} [LinearOrderedField α] [FloorRing α]
    (n : ℤ) (x : α) (h : x ≤ (n : α)) : roundHalfEven x ≤ n := by
  by_cases hfr : Int.fract x = 0
  · have hrw : roundHalfEven x = ⌊x⌋ := by
      unfold roundHalfEven
      rw [hfr]
      norm_num
    rw [hrw]
    calc ⌊x⌋ ≤ ⌊(n : α)⌋ := Int.floor_le_floor h
      _ = n := Int.floor_intCast n
  · have hpos : 0 < Int.fract x := lt_of_le_of_ne (Int.fract_nonneg x) (Ne.symm hfr)
    have h1 : (⌊x⌋ : α) < x := by
      rw [Int.fract] at hpos
      linarith
    have h3 : ⌊x⌋ < n := by exact_mod_cast lt_of_lt_of_le h1 h
    exact le_trans (roundHalfEven_le_floor_add_one x) (by omega)

/-- Helper: Python rounding to nd digits moves a value by at most half a
unit in the last place. -/
theorem abs_pyRound_sub {α : Type} [LinearOrderedField α] [FloorRing α]
    (nd : Nat) (x : α) : |pyRound nd x - x| ≤ 1 / (2 * 10 ^ nd) := by
  have h10 : (0 : α) < 10 ^ nd := by positivity
  unfold pyRound
  have hrw : (roundHalfEven (x * 10 ^ nd) : α) / 10 ^ nd - x
      = ((roundHalfEven (x * 10 ^ nd) : α) - x * 10 ^ nd) / 10 ^ nd := by
    field_simp
    ring
  rw [hrw, abs_div, abs_of_pos h10,
    show (1 : α) / (2 * 10 ^ nd) = (1/2) / 10 ^ nd by ring,
    div_le_div_iff_of_pos_right h10]
  exact abs_roundHalfEven_sub (x * 10 ^ nd)

/-- Helper: a lower bound expressed in units of the rounding grid is
preserved by pyRound. -/
theorem le_pyRound_of_le {α : Type} [LinearOrderedField α] [FloorRing α]
    (nd : Nat) (n : ℤ) (x : α) (h : (n : α) / 10 ^ nd ≤ x) :
    (n : α) / 10 ^ nd ≤ pyRound nd x := by
  have h10 : (0 : α) < 10 ^ nd := by positivity
  unfold pyRound
  rw [div_le_div_iff_of_pos_right h10]
  have hx : (n : α) ≤ x * 10 ^ nd := by
    rw [div_le_iff₀ h10] at h
    linarith
  exact_mod_cast int_le_roundHalfEven n (x * 10 ^ nd) hx

/-- Helper: an upper bound expressed in units of the rounding grid is
preserved by pyRound. -/
theorem pyRound_le_of_le {α : Type} [LinearOrderedField α] [FloorRing α]
    (nd : Nat) (n : ℤ) (x : α) (h : x ≤ (n : α) / 10 ^ nd) :
    pyRound nd x ≤ (n : α) / 10 ^ nd := by
  have h10 : (0 : α) < 10 ^ nd := by positivity
  unfold pyRound
  rw [div_le_div_iff_of_pos_right h10]
  have hx : x * 10 ^ nd ≤ (n : α) := by
    rw [le_div_iff₀ h10] at h
    linarith
  exact_mod_cast roundHalfEven_le_int n (x * 10 ^ nd) hx

/-- Helper: summed pointwise rounding errors bound the error of the
sums. -/
theorem abs_sum_map_sub {β : Type} (f g : β → ℚ) (e : ℚ) :
    ∀ l : List β, (∀ x ∈ l, |f x - g x| ≤ e) →
      |(l.map f).sum - (l.map g).sum| ≤ l.length * e := by
  intro l
  induction l with
  | nil => intro _; simp
  | cons a l ih =>
      intro h
      have ha := h a (List.mem_cons_self a l)
      have hl := ih (fun x hx => h x (List.mem_cons_of_mem a hx))
      simp only [List.map_cons, List.sum_cons, List.length_cons]
      have htri : |f a + (l.map f).sum - (g a + (l.map g).sum)|
          ≤ |f a - g a| + |(l.map f).sum - (l.map g).sum| := by
        have := abs_add (f a - g a) ((l.map f).sum - (l.map g).sum)
        calc |f a + (l.map f).sum - (g a + (l.map g).sum)|
            = |(f a - g a) + ((l.map f).sum - (l.map g).sum)| := by ring_nf
          _ ≤ _ := this
      calc |f a + (l.map f).sum - (g a + (l.map g).sum)|
          ≤ |f a - g a| + |(l.map f).sum - (l.map g).sum| := htri
        _ ≤ e + l.length * e := add_le_add ha hl
        _ = (l.length + 1) * e := by ring
        _ = ((l.length : ℕ) + 1 : ℕ) * e := by push_cast; ring

/-- Helper: dividing each summand distributes over a list sum. -/
theorem sum_map_div (l : List (String × Nat)) (T : ℚ) :
    (l.map (fun p => (p.2 : ℚ) / T)).sum = ((l.map (fun p => (p.2 : ℚ))).sum) / T := by
  induction l with
  | nil => simp
  | cons a l ih => simp [ih, add_div]

/-- Helper: a nonempty counter dict with positive counts has a positive
total. -/
theorem one_le_counts_sum (vc : List (String × Nat)) (hne : vc ≠ [])
    (hpos : ∀ p ∈ vc, 1 ≤ p.2) : 1 ≤ (vc.map (fun p => p.2)).sum := by
  cases vc with
  | nil => exact absurd rfl hne
  | cons a l =>
      have ha := hpos a (List.mem_cons_self a l)
      simp only [List.map_cons, List.sum_cons]
      omega

/-- Helper: Python round of one third to two decimals is 0.33. -/
theorem pyRound_third : pyRound 2 ((1 : ℚ)/3) = 33/100 := by
  have hfl : ⌊((1 : ℚ)/3 * 10 ^ 2)⌋ = 33 := by
    rw [Int.floor_eq_iff]
    constructor <;> norm_num
  have hfr : Int.fract ((1 : ℚ)/3 * 10 ^ 2) = 1/3 := by
    rw [Int.fract, hfl]
    norm_num
  unfold pyRound roundHalfEven
  rw [hfr, hfl]
  norm_num

/-- C5 counterexample: a customization dimension with three values of
equal count 1. Each kept value is round(1/3, 2) = 0.33 and the kept
values sum to 0.99, not 1.0. -/
theorem normalizeDim_sum_counterexample :
    ((normalizeDim [("a", 1), ("b", 1), ("c", 1)]).map (fun p => p.2)).sum = 99/100
    ∧ (99/100 : ℚ) ≠ 1 := by
  have hs : List.mergeSort [(("a" : String), (1 : Nat)), ("b", 1), ("c", 1)]
        (fun a b => decide (b.2 ≤ a.2))
      = [(("a" : String), (1 : Nat)), ("b", 1), ("c", 1)] :=
    List.mergeSort_of_sorted (by decide)
  constructor
  · unfold normalizeDim
    rw [hs]
    have htot : (((List.map (fun p => p.2)
        [(("a" : String), (1 : Nat)), ("b", 1), ("c", 1)]).sum : Nat) : ℚ) = 3 := by
      norm_num
    simp only [htot, List.take_succ_cons, List.take_zero, List.map_cons, List.map_nil,
      List.sum_cons, List.sum_nil, Nat.cast_one]
    norm_num [pyRound_third]
  · norm_num

/-- C5 amended: each dimension of the customization preference keeps only
the top 3 values, but the kept values are the rounded shares of the total
count over ALL values of the dimension, so they sum to 1.0 only up to
two-decimal rounding error: when the dimension has at most 3 distinct
values the kept sum is within 0.015 of 1.0 (0.99 in the counterexample),
and with more than 3 values the truncated tail lowers it further. -/
theorem normalizeDim_top3_and_rounded_sum :
    (∀ vc : List (String × Nat), (normalizeDim vc).length ≤ 3)
    ∧ (∀ vc : List (String × Nat), vc ≠ [] → vc.length ≤ 3 →
        (∀ p ∈ vc, 1 ≤ p.2) →
        |((normalizeDim vc).map (fun p => p.2)).sum - 1| ≤ 3/200) := by
  constructor
  · intro vc
    simp only [normalizeDim, List.length_map, List.length_take]
    exact min_le_left _ _
  · intro vc hne hlen hpos
    have hperm := List.mergeSort_perm vc (fun a b => decide (b.2 ≤ a.2))
    have hlen2 : (vc.mergeSort (fun a b => decide (b.2 ≤ a.2))).length ≤ 3 := by
      rw [hperm.length_eq]
      exact hlen
    have htake : (vc.mergeSort (fun a b => decide (b.2 ≤ a.2))).take 3
        = vc.mergeSort (fun a b => decide (b.2 ≤ a.2)) :=
      List.take_of_length_le hlen2
    have hT1 : 1 ≤ (vc.map (fun p => p.2)).sum := one_le_counts_sum vc hne hpos
    have hTpos : (0 : ℚ) < (((vc.map (fun p => p.2)).sum : Nat) : ℚ) := by
      exact_mod_cast Nat.lt_of_lt_of_le Nat.zero_lt_one hT1
    have hcast : ((((vc.map (fun p => p.2)).sum : Nat)) : ℚ)
        = (vc.map (fun p => (p.2 : ℚ))).sum := by
      rw [Nat.cast_list_sum, List.map_map]
      rfl
    have hsort_sum : ((vc.mergeSort (fun a b => decide (b.2 ≤ a.2))).map
          (fun p => (p.2 : ℚ))).sum = (vc.map (fun p => (p.2 : ℚ))).sum :=
      (hperm.map (fun p => (p.2 : ℚ))).sum_eq
    have hexact : ((vc.mergeSort (fun a b => decide (b.2 ≤ a.2))).map
          (fun p => (p.2 : ℚ) / (((vc.map (fun p => p.2)).sum : Nat) : ℚ))).sum = 1 := by
      rw [sum_map_div, hsort_sum, ← hcast, div_self (ne_of_gt hTpos)]
    have herr : ∀ p ∈ vc.mergeSort (fun a b => decide (b.2 ≤ a.2)),
        |pyRound 2 ((p.2 : ℚ) / (((vc.map (fun p => p.2)).sum : Nat) : ℚ))
          - (p.2 : ℚ) / (((vc.map (fun p => p.2)).sum : Nat) : ℚ)| ≤ 1 / (2 * 10 ^ 2) :=
      fun p _ => abs_pyRound_sub 2 _
    have hbound := abs_sum_map_sub
      (fun p : String × Nat =>
        pyRound 2 ((p.2 : ℚ) / (((vc.map (fun p => p.2)).sum : Nat) : ℚ)))
      (fun p : String × Nat =>
        (p.2 : ℚ) / (((vc.map (fun p => p.2)).sum : Nat) : ℚ))
      (1 / (2 * 10 ^ 2)) (vc.mergeSort (fun a b => decide (b.2 ≤ a.2))) herr
    rw [hexact] at hbound
    have hfinal : ((normalizeDim vc).map (fun p => p.2)).sum
        = ((vc.mergeSort (fun a b => decide (b.2 ≤ a.2))).map
            (fun p : String × Nat =>
              pyRound 2 ((p.2 : ℚ) / (((vc.map (fun p => p.2)).sum : Nat) : ℚ)))).sum := by
      unfold normalizeDim
      rw [htake, List.map_map]
      rfl
    rw [hfinal]
    calc |((vc.mergeSort (fun a b => decide (b.2 ≤ a.2))).map
            (fun p : String × Nat =>
              pyRound 2 ((p.2 : ℚ) / (((vc.map (fun p => p.2)).sum : Nat) : ℚ)))).sum - 1|
        ≤ (vc.mergeSort (fun a b => decide (b.2 ≤ a.2))).length * (1 / (2 * 10 ^ 2)) :=
          hbound
      _ ≤ 3 * (1 / (2 * 10 ^ 2)) := by
          have h3 : ((vc.mergeSort (fun a b => decide (b.2 ≤ a.2))).length : ℚ) ≤ 3 := by
            exact_mod_cast hlen2
          nlinarith
      _ = 3/200 := by norm_num

/-- Witness for the amended C5 at a concrete two-value dimension. -/
theorem normalizeDim_top3_and_rounded_sum_witness :
    (normalizeDim [("a", 1), ("b", 2)]).length ≤ 3
    ∧ |((normalizeDim [("a", 1), ("b", 2)]).map (fun p => p.2)).sum - 1| ≤ 3/200 :=
  ⟨normalizeDim_top3_and_rounded_sum.1 [("a", 1), ("b", 2)],
   normalizeDim_top3_and_rounded_sum.2 [("a", 1), ("b", 2)] (by decide) (by decide)
     (by decide)⟩

/-- Helper: Python rounding is exact on the rounding grid. -/
theorem pyRound_grid (nd : Nat) (n : ℤ) :
    pyRound nd ((n : ℚ) / 10 ^ nd) = (n : ℚ) / 10 ^ nd := by
  have harg : ((n : ℚ) / 10 ^ nd) * 10 ^ nd = (n : ℚ) := by
    field_simp
  unfold pyRound roundHalfEven
  rw [harg, Int.fract_intCast, Int.floor_intCast]
  norm_num

/-- C6 counterexample: a user preferring OAT milk and an item whose
constraints dict is present but lists no available milk types (the milk
dimension is absent from the item constraints): the milk factor is 0.95,
not the neutral 1.0 the claim requires. -/
theorem milk_neutrality_counterexample :
    (get_customization_based_boost false [("milk_type", [("OAT", 9/10)])] []
        (some { available_milk_types := none, available_sugar_levels := none })
        [] []).milk_match = 0.95
    ∧ ((0.95 : ℚ) ≠ 1) := by
  constructor
  · have h1 : (get_customization_based_boost false [("milk_type", [("OAT", 9/10)])] []
          (some { available_milk_types := none, available_sugar_levels := none })
          [] []).milk_match
        = pyRound 3 (milkFactor [("milk_type", [("OAT", 9/10)])]
            (some { available_milk_types := none, available_sugar_levels := none })) := rfl
    have h2 : milkFactor [("milk_type", [("OAT", 9/10)])]
        (some { available_milk_types := none, available_sugar_levels := none })
        = 0.95 := rfl
    rw [h1, h2, show (0.95 : ℚ) = ((950 : ℤ) : ℚ) / 10 ^ 3 by norm_num, pyRound_grid]
  · norm_num

/-- C6 amended: temperature, size and sugar dimensions contribute the
neutral factor 1.0 whenever they are absent from the user preference or
from the item side, and so does milk when the preference is absent or the
constraints dict is falsy; but when a milk preference exists and the
constraints are present without available milk types, the milk factor is
0.95 (non-NONE preference) or 1.05 (NONE preference), not 1.0. -/
theorem dimension_neutrality_amended :
    (∀ (pref : CustPref) (temps : List String),
      getDim pref "temperature" = [] ∨ temps = [] → tempFactor pref temps = 1)
    ∧ (∀ (pref : CustPref) (sizes : List String),
      getDim pref "cup_size" = [] ∨ sizes = [] → sizeFactor pref sizes = 1)
    ∧ (∀ (pref : CustPref) (cons : Option ConstraintsRec),
      getDim pref "sugar_level" = [] → sugarFactor pref cons = 1)
    ∧ (∀ pref : CustPref, sugarFactor pref none = 1)
    ∧ (∀ (pref : CustPref) (c : ConstraintsRec),
      truthyList c.available_sugar_levels = none → sugarFactor pref (some c) = 1)
    ∧ (∀ pref : CustPref, milkFactor pref none = 1)
    ∧ (∀ (pref : CustPref) (cons : Option ConstraintsRec),
      getDim pref "milk_type" = [] → milkFactor pref cons = 1)
    ∧ (∀ (pref : CustPref) (c : ConstraintsRec),
      truthyList c.available_milk_types = none → getDim pref "milk_type" ≠ [] →
      (milkFactor pref (some c) = 0.95 ∨ milkFactor pref (some c) = 1.05)) := by
  refine ⟨?_, ?_, ?_, ?_, ?_, ?_, ?_, ?_⟩
  · intro pref temps h
    rcases h with h | h <;> simp [tempFactor, h]
  · intro pref sizes h
    rcases h with h | h <;> simp [sizeFactor, h]
  · intro pref cons h
    simp [sugarFactor, h]
  · intro pref
    simp [sugarFactor]
  · intro pref c h
    simp [sugarFactor, h]
  · intro pref
    simp [milkFactor]
  · intro pref cons h
    simp [milkFactor, h]
  · intro pref c h hne
    cases hmp : getDim pref "milk_type" with
    | nil => exact absurd hmp hne
    | cons a l =>
        cases hax : argmaxKey (a :: l) with
        | none => right; simp [milkFactor, hmp, h, hax]
        | some pm =>
            by_cases hc : pm ≠ "" ∧ upperStr pm ≠ "NONE"
            · left
              simp only [milkFactor, hmp, h, hax, List.isEmpty_cons, Bool.false_eq_true,
                if_false, if_pos hc]
            · right
              simp only [milkFactor, hmp, h, hax, List.isEmpty_cons, Bool.false_eq_true,
                if_false, if_neg hc]

/-- Witness for the amended C6: a missing temperature preference is
neutral, and the milk factor at the counterexample input is one of the
non-neutral values. -/
theorem dimension_neutrality_amended_witness :
    tempFactor [] [] = 1
    ∧ (milkFactor [("milk_type", [("OAT", 9/10)])]
          (some { available_milk_types := none, available_sugar_levels := none }) = 0.95
      ∨ milkFactor [("milk_type", [("OAT", 9/10)])]
          (some { available_milk_types := none, available_sugar_levels := none }) = 1.05) :=
  ⟨dimension_neutrality_amended.1 [] [] (Or.inl rfl),
   dimension_neutrality_amended.2.2.2.2.2.2.2 [("milk_type", [("OAT", 9/10)])]
     { available_milk_types := none, available_sugar_levels := none } rfl (by decide)⟩

/-- Helper: the clamp to [0.8, 1.5] followed by 3-digit rounding stays in
[0.8, 1.5]. -/
theorem pyRound_clamp_bounds (x : ℚ) :
    0.8 ≤ pyRound 3 (max 0.8 (min 1.5 x)) ∧ pyRound 3 (max 0.8 (min 1.5 x)) ≤ 1.5 := by
  constructor
  · rw [show (0.8 : ℚ) = ((800 : ℤ) : ℚ) / 10 ^ 3 by norm_num]
    exact le_pyRound_of_le 3 800 _ (le_max_left _ _)
  · rw [show (1.5 : ℚ) = ((1500 : ℤ) : ℚ) / 10 ^ 3 by norm_num]
    refine pyRound_le_of_le 3 1500 _ (max_le (by norm_num) (min_le_left _ _))

/-- C7: the customization total_boost always lies in [0.8, 1.5]; the
session boost always lies in [0, 2.5]; and a session id with no recorded
state gets exactly the neutral boost 1.0. -/
theorem boost_bounds :
    (∀ (isNew : Bool) (pref : CustPref) (presets : List Preset)
        (cons : Option ConstraintsRec) (temps sizes : List String),
      0.8 ≤ (get_customization_based_boost isNew pref presets cons temps sizes).total_boost
      ∧ (get_customization_based_boost isNew pref presets cons temps sizes).total_boost
          ≤ 1.5)
    ∧ (∀ (sessions : List (String × Session)) (sid : String) (tags : List String)
        (cat : String) (price : ℚ),
      0 ≤ get_session_boost sessions sid tags cat price
      ∧ get_session_boost sessions sid tags cat price ≤ 2.5)
    ∧ (∀ (sessions : List (String × Session)) (sid : String) (tags : List String)
        (cat : String) (price : ℚ),
      dictGet sid sessions = none → get_session_boost sessions sid tags cat price = 1) := by
  refine ⟨?_, ?_, ?_⟩
  · intro isNew pref presets cons temps sizes
    unfold get_customization_based_boost
    dsimp only
    split <;> split <;>
      first
        | exact pyRound_clamp_bounds _
        | constructor <;> norm_num
  · intro sessions sid tags cat price
    unfold get_session_boost
    cases hd : dictGet sid sessions with
    | none => exact ⟨by norm_num, by norm_num⟩
    | some s =>
        dsimp only
        have hmax : (0 : ℚ) ≤ max 0.3
            (1 - ((tags.filter (fun t => t ∈ s.prefs.disliked_tags)).length : ℚ) * 0.3) :=
          le_trans (by norm_num) (le_max_left _ _)
        have hA : (0 : ℚ)
            ≤ 1 * (1 + ((tags.filter (fun t => t ∈ s.prefs.liked_tags)).length : ℚ) * 0.15) := by
          positivity
        have hAB := mul_nonneg hA hmax
        split <;> split_ifs <;>
          (refine ⟨le_min ?_ (by norm_num), min_le_right _ _⟩; nlinarith [hAB])
  · intro sessions sid tags cat price h
    simp [get_session_boost, h]

/-- Witness for C7 at concrete inputs: a session id absent from an empty
session table gets the neutral boost, which is inside the bounds. -/
theorem boost_bounds_witness :
    get_session_boost [] "s1" [] "" 0 = 1
    ∧ 0 ≤ get_session_boost [] "s1" [] "" 0
    ∧ get_session_boost [] "s1" [] "" 0 ≤ 2.5 :=
  ⟨boost_bounds.2.2 [] "s1" [] "" 0 rfl,
   (boost_bounds.2.1 [] "s1" [] "" 0).1,
   (boost_bounds.2.1 [] "s1" [] "" 0).2⟩

/-- Helper: the paired dislike fold updates the disliked and liked lists
independently. -/
theorem dislike_fold_eq (tags : List String) :
    ∀ d l : List String,
      tags.foldl (fun (pr : List String × List String) t =>
          (addUnique pr.1 t, if t ∈ pr.2 then pr.2.erase t else pr.2)) (d, l)
        = (tags.foldl addUnique d,
           tags.foldl (fun l₂ t₂ => if t₂ ∈ l₂ then l₂.erase t₂ else l₂) l) := by
  induction tags with
  | nil => intro d l; rfl
  | cons t ts ih =>
      intro d l
      simp only [List.foldl_cons]
      exact ih _ _

/-- Helper: folding addUnique preserves membership. -/
theorem mem_foldl_addUnique_of_mem (tags : List String) :
    ∀ (l : List String) (t : String), t ∈ l → t ∈ tags.foldl addUnique l := by
  induction tags with
  | nil => intro l t ht; exact ht
  | cons t₀ ts ih =>
      intro l t ht
      rw [List.foldl_cons]
      refine ih _ t ?_
      unfold addUnique
      by_cases h : t₀ ∈ l
      · rw [if_pos h]; exact ht
      · rw [if_neg h]; exact List.mem_append_left _ ht

/-- Helper: folding addUnique adds every folded element. -/
theorem mem_foldl_addUnique (tags : List String) :
    ∀ (l : List String) (t : String), t ∈ tags → t ∈ tags.foldl addUnique l := by
  induction tags with
  | nil => intro l t ht; exact absurd ht (List.not_mem_nil t)
  | cons t₀ ts ih =>
      intro l t ht
      rw [List.foldl_cons]
      rcases List.mem_cons.mp ht with rfl | hts
      · refine mem_foldl_addUnique_of_mem ts _ t ?_
        unfold addUnique
        by_cases h : t ∈ l
        · rw [if_pos h]; exact h
        · rw [if_neg h]; exact List.mem_append_right _ (List.mem_singleton.mpr rfl)
      · exact ih _ t hts

/-- Helper: the erase fold only removes elements. -/
theorem foldl_erase_sublist (tags : List String) :
    ∀ l : List String,
      List.Sublist (tags.foldl (fun l₂ t₂ => if t₂ ∈ l₂ then l₂.erase t₂ else l₂) l) l := by
  induction tags with
  | nil => intro l; exact List.Sublist.refl l
  | cons t ts ih =>
      intro l
      rw [List.foldl_cons]
      refine (ih _).trans ?_
      by_cases h : t ∈ l
      · rw [if_pos h]; exact List.erase_sublist t l
      · rw [if_neg h]

/-- Helper: on a duplicate-free list, the erase fold removes every folded
element. -/
theorem foldl_erase_not_mem (tags : List String) :
    ∀ l : List String, l.Nodup → ∀ t ∈ tags,
      t ∉ tags.foldl (fun l₂ t₂ => if t₂ ∈ l₂ then l₂.erase t₂ else l₂) l := by
  induction tags with
  | nil => intro l _ t ht; exact absurd ht (List.not_mem_nil t)
  | cons t₀ ts ih =>
      intro l hnd t ht
      rw [List.foldl_cons]
      have hstep : (if t₀ ∈ l then l.erase t₀ else l).Nodup := by
        by_cases h : t₀ ∈ l
        · rw [if_pos h]; exact hnd.erase t₀
        · rw [if_neg h]; exact hnd
      rcases List.mem_cons.mp ht with rfl | hts
      · have hnotin : t ∉ (if t ∈ l then l.erase t else l) := by
          by_cases h : t ∈ l
          · rw [if_pos h]; exact hnd.not_mem_erase
          · rw [if_neg h]; exact h
        intro hmem
        exact hnotin ((foldl_erase_sublist ts _).subset hmem)
      · exact ih _ hstep t hts

/-- C8 counterexample: dislike an item tagged sweet, then like an item
tagged sweet. The like does NOT remove the tag from the disliked set: the
tag ends in both sets, while the claim requires the disliked set to drop
it. -/
theorem like_dislike_counterexample :
    (record_interaction
        (record_interaction (newSession "s1" none) "dislike"
          { tags := ["sweet"], category := none, price := none })
        "like"
        { tags := ["sweet"], category := none, price := none }).prefs.disliked_tags
      = ["sweet"]
    ∧ "sweet" ∈ (record_interaction
        (record_interaction (newSession "s1" none) "dislike"
          { tags := ["sweet"], category := none, price := none })
        "like"
        { tags := ["sweet"], category := none, price := none }).prefs.liked_tags := by
  constructor
  · rfl
  · decide

/-- C8 amended: a like interaction adds the item tags to the liked set
and leaves the disliked set unchanged (no most-recent-intent removal in
this direction); a dislike interaction adds the tags to the disliked set
and removes them from the (duplicate-free) liked set. -/
theorem record_interaction_like_dislike_amended :
    (∀ (s : Session) (item : SessionItem),
      (record_interaction s "like" item).prefs.disliked_tags = s.prefs.disliked_tags
      ∧ ∀ t ∈ item.tags, t ∈ (record_interaction s "like" item).prefs.liked_tags)
    ∧ (∀ (s : Session) (item : SessionItem),
      (∀ t ∈ item.tags, t ∈ (record_interaction s "dislike" item).prefs.disliked_tags)
      ∧ (s.prefs.liked_tags.Nodup →
          ∀ t ∈ item.tags,
            t ∉ (record_interaction s "dislike" item).prefs.liked_tags)) := by
  constructor
  · intro s item
    constructor
    · rfl
    · intro t ht
      exact mem_foldl_addUnique item.tags s.prefs.liked_tags t ht
  · intro s item
    have hd : (record_interaction s "dislike" item).prefs.disliked_tags
        = item.tags.foldl addUnique s.prefs.disliked_tags := by
      show (item.tags.foldl (fun (pr : List String × List String) t =>
          (addUnique pr.1 t, if t ∈ pr.2 then pr.2.erase t else pr.2))
          (s.prefs.disliked_tags, s.prefs.liked_tags)).1 = _
      rw [dislike_fold_eq]
    have hl : (record_interaction s "dislike" item).prefs.liked_tags
        = item.tags.foldl (fun l₂ t₂ => if t₂ ∈ l₂ then l₂.erase t₂ else l₂)
            s.prefs.liked_tags := by
      show (item.tags.foldl (fun (pr : List String × List String) t =>
          (addUnique pr.1 t, if t ∈ pr.2 then pr.2.erase t else pr.2))
          (s.prefs.disliked_tags, s.prefs.liked_tags)).2 = _
      rw [dislike_fold_eq]
    constructor
    · intro t ht
      rw [hd]
      exact mem_foldl_addUnique item.tags s.prefs.disliked_tags t ht
    · intro hnd t ht
      rw [hl]
      exact foldl_erase_not_mem item.tags s.prefs.liked_tags hnd t ht

/-- Witness for the amended C8: on a session whose liked set holds the
sweet tag, a dislike of a sweet item records the tag as disliked and
removes it from the liked set. -/
theorem record_interaction_like_dislike_amended_witness :
    "sweet" ∈ (record_interaction
        (record_interaction (newSession "s2" none) "like"
          { tags := ["sweet"], category := none, price := none })
        "dislike"
        { tags := ["sweet"], category := none, price := none }).prefs.disliked_tags
    ∧ "sweet" ∉ (record_interaction
        (record_interaction (newSession "s2" none) "like"
          { tags := ["sweet"], category := none, price := none })
        "dislike"
        { tags := ["sweet"], category := none, price := none }).prefs.liked_tags :=
  ⟨(record_interaction_like_dislike_amended.2
      (record_interaction (newSession "s2" none) "like"
        { tags := ["sweet"], category := none, price := none })
      { tags := ["sweet"], category := none, price := none }).1
      "sweet" (by decide),
   (record_interaction_like_dislike_amended.2
      (record_interaction (newSession "s2" none) "like"
        { tags := ["sweet"], category := none, price := none })
      { tags := ["sweet"], category := none, price := none }).2
      (by decide) "sweet" (by decide)⟩

/-- Helper: a common lower bound on list elements bounds the sum from
below. -/
theorem mul_length_le_sum (c : ℚ) :
    ∀ l : List ℚ, (∀ x ∈ l, c ≤ x) → c * l.length ≤ l.sum := by
  intro l
  induction l with
  | nil => intro _; simp
  | cons a l ih =>
      intro h
      have ha := h a (List.mem_cons_self a l)
      have hl := ih (fun x hx => h x (List.mem_cons_of_mem a hx))
      simp only [List.sum_cons, List.length_cons]
      push_cast
      nlinarith

/-- Helper: a common upper bound on list elements bounds the sum from
above. -/
theorem sum_le_mul_length (c : ℚ) :
    ∀ l : List ℚ, (∀ x ∈ l, x ≤ c) → l.sum ≤ c * l.length := by
  intro l
  induction l with
  | nil => intro _; simp
  | cons a l ih =>
      intro h
      have ha := h a (List.mem_cons_self a l)
      have hl := ih (fun x hx => h x (List.mem_cons_of_mem a hx))
      simp only [List.sum_cons, List.length_cons]
      push_cast
      nlinarith

/-- Helper: one record_interaction step preserves the price-range
invariant, extending the observed prices by the price the event
observes. -/
theorem priceInv_step (s : Session) (ty : String) (item : SessionItem) (ps : List ℚ)
    (h : PriceInv ps s.prefs.price_range) :
    PriceInv (ps ++ (eventPrice (ty, item)).toList)
      ((record_interaction s ty item).prefs.price_range) := by
  by_cases h1 : ty = "like"
  · subst h1
    have hpr : (record_interaction s "like" item).prefs.price_range
        = s.prefs.price_range := rfl
    have hev : eventPrice ("like", item) = none := rfl
    rw [hpr, hev]
    simpa using h
  · by_cases h2 : ty = "dislike"
    · subst h2
      have hpr : (record_interaction s "dislike" item).prefs.price_range
          = s.prefs.price_range := rfl
      have hev : eventPrice ("dislike", item) = none := rfl
      rw [hpr, hev]
      simpa using h
    · by_cases h3 : ty = "view" ∨ ty = "click"
      · have hev : eventPrice (ty, item) = truthyQ item.price := by
          simp [eventPrice, h3]
        have hpr : (record_interaction s ty item).prefs.price_range
            = match truthyQ item.price with
              | some price => some (updatePriceRange s.prefs.price_range price)
              | none => s.prefs.price_range := by
          simp [record_interaction, h1, h2, h3]
        rw [hev, hpr]
        cases htp : truthyQ item.price with
        | none => simpa using h
        | some p =>
            cases hold : s.prefs.price_range with
            | none =>
                rw [hold] at h
                have hps : ps = [] := h
                subst hps
                simp only [PriceInv, updatePriceRange, List.nil_append, Option.toList_some]
                refine ⟨by simp, by simp, by simp, ?_, by simp, ?_, by simp⟩
                · intro q hq
                  simp at hq
                  simp [hq]
                · intro q hq
                  simp at hq
                  simp [hq]
            | some pr =>
                rw [hold] at h
                simp only [PriceInv] at h
                obtain ⟨hne, hcount, hminmem, hminle, hmaxmem, hmaxle, havg⟩ := h
                have hlen : 0 < ps.length := List.length_pos.mpr hne
                have hlenQ : (0 : ℚ) < (ps.length : ℚ) := by exact_mod_cast hlen
                simp only [PriceInv, updatePriceRange, Option.toList_some]
                refine ⟨by simp, ?_, ?_, ?_, ?_, ?_, ?_⟩
                · simp [hcount]
                · rcases min_choice pr.minP p with hmin | hmin
                  · rw [hmin]
                    exact List.mem_append_left _ hminmem
                  · rw [hmin]
                    exact List.mem_append_right _ (by simp)
                · intro q hq
                  rcases List.mem_append.mp hq with hq | hq
                  · exact le_trans (min_le_left _ _) (hminle q hq)
                  · simp at hq
                    rw [hq]
                    exact min_le_right _ _
                · rcases max_choice pr.maxP p with hmax | hmax
                  · rw [hmax]
                    exact List.mem_append_left _ hmaxmem
                  · rw [hmax]
                    exact List.mem_append_right _ (by simp)
                · intro q hq
                  rcases List.mem_append.mp hq with hq | hq
                  · exact le_trans (hmaxle q hq) (le_max_left _ _)
                  · simp at hq
                    rw [hq]
                    exact le_max_right _ _
                · rw [havg, hcount]
                  simp only [List.sum_append, List.length_append, List.sum_cons,
                    List.sum_nil, List.length_cons, List.length_nil]
                  push_cast
                  field_simp
      · have hev : eventPrice (ty, item) = none := by
          simp [eventPrice, h3]
        have hpr : (record_interaction s ty item).prefs.price_range
            = s.prefs.price_range := by
          simp [record_interaction, h1, h2, h3]
        rw [hev, hpr]
        simpa using h

/-- Helper: replaying interactions preserves the price-range invariant. -/
theorem priceInv_fold (evs : List (String × SessionItem)) :
    ∀ (s : Session) (ps : List ℚ), PriceInv ps s.prefs.price_range →
      PriceInv (ps ++ observedPrices evs)
        ((applyInteractions s evs).prefs.price_range) := by
  induction evs with
  | nil =>
      intro s ps h
      simpa [observedPrices, applyInteractions] using h
  | cons e es ih =>
      intro s ps h
      have happ : ps ++ observedPrices (e :: es)
          = (ps ++ (eventPrice e).toList) ++ observedPrices es := by
        cases hev : eventPrice e <;>
          simp [observedPrices, List.filterMap_cons, hev, List.append_assoc]
      rw [happ]
      exact ih (record_interaction s e.1 e.2) (ps ++ (eventPrice e).toList)
        (priceInv_step s e.1 e.2 ps h)

/-- C10: after any sequence of record_interaction calls on a fresh
session, the price range satisfies: it is absent exactly when no view or
click carried a truthy price; otherwise its count is the number of such
interactions, its min and max are the minimum and maximum of the observed
prices, its avg is their running mean (equal to the arithmetic mean), and
min is at most avg which is at most max. -/
theorem price_range_invariant (sid : String) (uid : Option String)
    (evs : List (String × SessionItem)) :
    PriceInv (observedPrices evs)
      ((applyInteractions (newSession sid uid) evs).prefs.price_range)
    ∧ (∀ pr, (applyInteractions (newSession sid uid) evs).prefs.price_range = some pr →
        pr.minP ≤ pr.avg ∧ pr.avg ≤ pr.maxP) := by
  have hinit : PriceInv [] (newSession sid uid).prefs.price_range := rfl
  have h := priceInv_fold evs (newSession sid uid) [] hinit
  rw [List.nil_append] at h
  refine ⟨h, ?_⟩
  intro pr hpr
  rw [hpr] at h
  simp only [PriceInv] at h
  obtain ⟨hne, hcount, hminmem, hminle, hmaxmem, hmaxle, havg⟩ := h
  have hlen : 0 < (observedPrices evs).length := List.length_pos.mpr hne
  have hlenQ : (0 : ℚ) < ((observedPrices evs).length : ℚ) := by exact_mod_cast hlen
  constructor
  · rw [havg, le_div_iff₀ hlenQ]
    have := mul_length_le_sum pr.minP (observedPrices evs) hminle
    linarith
  · rw [havg, div_le_iff₀ hlenQ]
    have := sum_le_mul_length pr.maxP (observedPrices evs) hmaxle
    linarith

/-- Witness for C10 at a concrete interaction sequence: a view at price
10 and a click at price 20 on a fresh session. -/
theorem price_range_invariant_witness :
    PriceInv (observedPrices
        [("view", { tags := [], category := none, price := some 10 }),
         ("click", { tags := [], category := none, price := some 20 })])
      ((applyInteractions (newSession "s3" none)
        [("view", { tags := [], category := none, price := some 10 }),
         ("click", { tags := [], category := none, price := some 20 })]).prefs.price_range)
    ∧ (∀ pr, (applyInteractions (newSession "s3" none)
        [("view", { tags := [], category := none, price := some 10 }),
         ("click", { tags := [], category := none, price := some 20 })]).prefs.price_range
          = some pr →
        pr.minP ≤ pr.avg ∧ pr.avg ≤ pr.maxP) :=
  price_range_invariant "s3" none
    [("view", { tags := [], category := none, price := some 10 }),
     ("click", { tags := [], category := none, price := some 20 })]

/-- Helper: the descending final-score comparison is transitive. -/
theorem rerankLE_trans (a b c : RecEntry)
    (hab : decide (b.final_score ≤ a.final_score) = true)
    (hbc : decide (c.final_score ≤ b.final_score) = true) :
    decide (c.final_score ≤ a.final_score) = true := by
  simp only [decide_eq_true_eq] at *
  exact le_trans hbc hab

/-- Helper: the descending final-score comparison is total. -/
theorem rerankLE_total (a b : RecEntry) :
    (decide (b.final_score ≤ a.final_score) || decide (a.final_score ≤ b.final_score))
      = true := by
  rcases le_total b.final_score a.final_score with h | h <;> simp [h]

/-- C9: every reranked record carries final_score equal to the product of
its base similarity and its five multipliers, the rerank output is sorted
descending by final score, and candidates of equal final score keep their
relative order from the similarity-ranked input (stability of the sort,
expressed as preservation of every equal-score fiber). -/
theorem rerank_spec (cs : List CandidateFactors) :
    (∀ r ∈ rerank cs,
      r.final_score = r.base_score * r.rule_multiplier * r.behavior_multiplier
        * r.session_multiplier * r.customization_multiplier * r.cold_start_boost)
    ∧ List.Pairwise (fun a b => b.final_score ≤ a.final_score) (rerank cs)
    ∧ (∀ q : ℚ, (rerank cs).filter (fun r => decide (r.final_score = q))
        = (cs.map mkEntry).filter (fun r => decide (r.final_score = q))) := by
  refine ⟨?_, ?_, ?_⟩
  · intro r hr
    have hm : r ∈ cs.map mkEntry := List.mem_mergeSort.mp hr
    obtain ⟨c, _, rfl⟩ := List.mem_map.mp hm
    rfl
  · have hs := List.sorted_mergeSort rerankLE_trans rerankLE_total (cs.map mkEntry)
    exact hs.imp (fun h => of_decide_eq_true h)
  · intro q
    have hall : ∀ r ∈ (cs.map mkEntry).filter (fun r => decide (r.final_score = q)),
        r.final_score = q := by
      intro r hr
      have := (List.mem_filter.mp hr).2
      exact of_decide_eq_true this
    have hpc : ((cs.map mkEntry).filter (fun r => decide (r.final_score = q))).Pairwise
        (fun a b => decide (b.final_score ≤ a.final_score) = true) := by
      refine List.pairwise_of_forall_mem_list ?_
      intro a ha b hb
      rw [hall a ha, hall b hb]
      simp
    have hsub : List.Sublist
        ((cs.map mkEntry).filter (fun r => decide (r.final_score = q)))
        (rerank cs) :=
      List.sublist_mergeSort rerankLE_trans rerankLE_total hpc (List.filter_sublist _)
    have hsub2 : List.Sublist
        ((cs.map mkEntry).filter (fun r => decide (r.final_score = q)))
        ((rerank cs).filter (fun r => decide (r.final_score = q))) := by
      have hfs := hsub.filter (fun r => decide (r.final_score = q))
      have hfself : ((cs.map mkEntry).filter (fun r => decide (r.final_score = q))).filter
            (fun r => decide (r.final_score = q))
          = (cs.map mkEntry).filter (fun r => decide (r.final_score = q)) := by
        apply List.filter_eq_self.mpr
        intro a ha
        exact (List.mem_filter.mp ha).2
      rwa [hfself] at hfs
    have hperm : List.Perm (rerank cs) (cs.map mkEntry) := List.mergeSort_perm _ _
    have hlen : ((cs.map mkEntry).filter (fun r => decide (r.final_score = q))).length
        = ((rerank cs).filter (fun r => decide (r.final_score = q))).length :=
      ((hperm.filter (fun r => decide (r.final_score = q))).length_eq).symm
    exact (hsub2.eq_of_length hlen).symm

/-- Witness for C9 at a one-candidate list: the single record composes
its final score as the product of its factors and survives the sort. -/
theorem rerank_spec_witness :
    (mkEntry ⟨"sku1", 1, 2, 3, 4, 5, 6⟩).final_score
      = (mkEntry ⟨"sku1", 1, 2, 3, 4, 5, 6⟩).base_score
        * (mkEntry ⟨"sku1", 1, 2, 3, 4, 5, 6⟩).rule_multiplier
        * (mkEntry ⟨"sku1", 1, 2, 3, 4, 5, 6⟩).behavior_multiplier
        * (mkEntry ⟨"sku1", 1, 2, 3, 4, 5, 6⟩).session_multiplier
        * (mkEntry ⟨"sku1", 1, 2, 3, 4, 5, 6⟩).customization_multiplier
        * (mkEntry ⟨"sku1", 1, 2, 3, 4, 5, 6⟩).cold_start_boost :=
  (rerank_spec [⟨"sku1", 1, 2, 3, 4, 5, 6⟩]).1 (mkEntry ⟨"sku1", 1, 2, 3, 4, 5, 6⟩)
    (by simp [rerank, List.mergeSort_singleton])
